import Mathlib

/-!
Verification development for the point-cloud-to-STL converter
(`pyFunc/pointcloud_to_stl.py`, class `PointCloudToSTLConverter`).

The Python source is shallowly embedded over `ℝ`: points are real triples,
meshes are vertex/triangle lists, and the external geometry library
(Open3D / SciPy) is modelled by oracle parameters.  A fallible external
primitive (one whose call sits inside a `try`/`except` in the source) is an
oracle returning `Option`/`Except`, where `none`/`.error` models a raised
exception at the call site.
-/

namespace PCV

/-- A 3D point, as handled by the converter (numpy rows of 3 floats,
embedded as real triples). -/
abbrev Pt : Type := ℝ × ℝ × ℝ

/-- Default point used for out-of-range numpy-style indexing in the model. -/
def ptZero : Pt := (0, 0, 0)

/-- `np.linalg.norm(p - q)`: the Euclidean distance between two points. -/
noncomputable def dist3 (p q : Pt) : ℝ :=
  Real.sqrt ((p.1 - q.1) ^ 2 + (p.2.1 - q.2.1) ^ 2 + (p.2.2 - q.2.2) ^ 2)

theorem dist3_comm (p q : Pt) : dist3 p q = dist3 q p := by
  have h : (p.1 - q.1) ^ 2 + (p.2.1 - q.2.1) ^ 2 + (p.2.2 - q.2.2) ^ 2
      = (q.1 - p.1) ^ 2 + (q.2.1 - p.2.1) ^ 2 + (q.2.2 - p.2.2) ^ 2 := by ring
  unfold dist3
  rw [h]

/-- An indexed triangle mesh: `o3d.geometry.TriangleMesh`, reduced to the
data the converter manipulates (vertex list and 0-based triangle index
triples).  Normals are recomputed by external primitives and not modelled. -/
structure Mesh where
  vertices : List Pt
  triangles : List (ℕ × ℕ × ℕ)

/-- The three vertex indices of a triangle, as a list. -/
def triIdx (t : ℕ × ℕ × ℕ) : List ℕ := [t.1, t.2.1, t.2.2]

/-- The indices shared by two triangles (the common edge / diagonal). -/
def sharedIdx (t1 t2 : ℕ × ℕ × ℕ) : List ℕ :=
  (triIdx t1).filter (fun i => decide (i ∈ triIdx t2))

/-- `create_quad_mesh(corners)`: builds a 2-triangle mesh over the 4 corner
points, splitting along the shorter diagonal.  Mirrors the source:
`diag1_len = norm(corners[2] - corners[0])`,
`diag2_len = norm(corners[3] - corners[1])`; if `diag1_len < diag2_len`
the triangles are `[[0,1,2],[0,2,3]]`, otherwise `[[0,1,3],[1,2,3]]`.
(`compute_vertex_normals` only fills normal data and is not modelled; the
`except` branch returning `None` can only fire on an external failure of
the mesh constructor, which the real-arithmetic model has no analogue of.) -/
noncomputable def createQuadMesh (corners : List Pt) : Mesh :=
  let diag1Len := dist3 (corners.getD 2 ptZero) (corners.getD 0 ptZero)
  let diag2Len := dist3 (corners.getD 3 ptZero) (corners.getD 1 ptZero)
  { vertices := corners
    triangles :=
      if diag1Len < diag2Len then [(0, 1, 2), (0, 2, 3)]
      else [(0, 1, 3), (1, 2, 3)] }

/-- C5: for every 4-corner quad, `create_quad_mesh` produces exactly 2
triangles whose indices reference the 4 corners, and the diagonal the two
triangles share is the shorter of the two candidate diagonals
(corner 0–2 versus corner 1–3): its endpoint distance equals the minimum
of the two diagonal lengths. -/
theorem create_quad_mesh_spec (corners : List Pt) (h4 : corners.length = 4) :
    (createQuadMesh corners).vertices = corners ∧
    ∃ t1 t2, (createQuadMesh corners).triangles = [t1, t2] ∧
      t1.1 < 4 ∧ t1.2.1 < 4 ∧ t1.2.2 < 4 ∧
      t2.1 < 4 ∧ t2.2.1 < 4 ∧ t2.2.2 < 4 ∧
      ∃ a b, a < 4 ∧ b < 4 ∧ sharedIdx t1 t2 = [a, b] ∧
        dist3 (corners.getD a ptZero) (corners.getD b ptZero) =
          min (dist3 (corners.getD 2 ptZero) (corners.getD 0 ptZero))
              (dist3 (corners.getD 3 ptZero) (corners.getD 1 ptZero)) := by
  refine ⟨rfl, ?_⟩
  by_cases hlt : dist3 (corners.getD 2 ptZero) (corners.getD 0 ptZero) <
      dist3 (corners.getD 3 ptZero) (corners.getD 1 ptZero)
  · refine ⟨(0, 1, 2), (0, 2, 3), ?_, by norm_num, by norm_num, by norm_num,
      by norm_num, by norm_num, by norm_num, 0, 2, by norm_num, by norm_num, ?_, ?_⟩
    · simp only [createQuadMesh, if_pos hlt]
    · rfl
    · rw [dist3_comm, min_eq_left (le_of_lt hlt)]
  · refine ⟨(0, 1, 3), (1, 2, 3), ?_, by norm_num, by norm_num, by norm_num,
      by norm_num, by norm_num, by norm_num, 1, 3, by norm_num, by norm_num, ?_, ?_⟩
    · simp only [createQuadMesh, if_neg hlt]
    · rfl
    · rw [dist3_comm, min_eq_right (le_of_not_lt hlt)]

/-- A concrete 2×1 rectangle used as witness data for `create_quad_mesh_spec`. -/
def wRect : List Pt := [(0, 0, 0), (2, 0, 0), (2, 1, 0), (0, 1, 0)]

/-- Witness for C5: the 4-corner hypothesis holds for a concrete rectangle,
and the theorem yields its conclusion there. -/
theorem create_quad_mesh_spec_witness :
    wRect.length = 4 ∧ (createQuadMesh wRect).vertices = wRect :=
  ⟨rfl, (create_quad_mesh_spec wRect rfl).1⟩

/-- C10: for every 4-corner quad whose two diagonals have exactly equal
lengths, `create_quad_mesh` takes the `else` branch of the strict
comparison `diag1_len < diag2_len`, deterministically splitting along the
corner 1–3 diagonal with triangles `(0,1,3)` and `(1,2,3)`. -/
theorem create_quad_mesh_equal_diagonals (corners : List Pt)
    (h4 : corners.length = 4)
    (heq : dist3 (corners.getD 2 ptZero) (corners.getD 0 ptZero) =
      dist3 (corners.getD 3 ptZero) (corners.getD 1 ptZero)) :
    (createQuadMesh corners).triangles = [(0, 1, 3), (1, 2, 3)] := by
  simp only [createQuadMesh, heq, lt_irrefl, if_false]

/-- A degenerate quad (all corners coincident): both diagonals have length
`dist3 ptZero ptZero`, so they are exactly equal. -/
def wDegQuad : List Pt := [ptZero, ptZero, ptZero, ptZero]

/-- Witness for C10: on a concrete quad with exactly equal diagonals the
builder emits the `(0,1,3)`/`(1,2,3)` split. -/
theorem create_quad_mesh_equal_diagonals_witness :
    (createQuadMesh wDegQuad).triangles = [(0, 1, 3), (1, 2, 3)] :=
  create_quad_mesh_equal_diagonals wDegQuad rfl rfl

/-! ## `_estimate_spacing` (§4.1 SpacingEstimator) -/

/-- The nearest-neighbour distance from point `i` of `pts` to the rest of
`pts`: this is `dists[:, 1]` of the `cKDTree.query(sample, k=2)` call —
the distance to the nearest point other than the query point itself
(the `k=1` hit being the point itself at distance 0).  The `[]` case is
unreachable for `pts.length ≥ 2` and valid `i`. -/
noncomputable def nnDist (pts : List Pt) (i : ℕ) : ℝ :=
  match ((List.range pts.length).filter (fun j => decide (j ≠ i))).map
      (fun j => dist3 (pts.getD i ptZero) (pts.getD j ptZero)) with
  | [] => 0
  | d :: ds => ds.foldl min d

/-- `np.median`: sort ascending; middle element for odd length, mean of the
two middle elements for even length. -/
noncomputable def median (l : List ℝ) : ℝ :=
  let s := l.insertionSort (fun a b => a ≤ b)
  if s.length % 2 = 1 then s.getD (s.length / 2) 0
  else (s.getD (s.length / 2 - 1) 0 + s.getD (s.length / 2) 0) / 2

theorem median_pos (l : List ℝ) (hne : l ≠ []) (hpos : ∀ x ∈ l, 0 < x) :
    0 < median l := by
  have hperm : List.Perm (l.insertionSort (fun a b => a ≤ b)) l :=
    List.perm_insertionSort (fun a b => a ≤ b) l
  set s := l.insertionSort (fun a b => a ≤ b) with hs
  have hposs : ∀ x ∈ s, 0 < x := fun x hx => hpos x (hperm.mem_iff.mp hx)
  have hlen : s.length = l.length := hperm.length_eq
  have hlpos : 0 < s.length := by
    rw [hlen]
    exact List.length_pos.mpr hne
  have hget : ∀ n, n < s.length → 0 < s.getD n 0 := by
    intro n hn
    rw [List.getD_eq_getElem s 0 hn]
    exact hposs _ (List.getElem_mem hn)
  unfold median
  rw [← hs]
  by_cases hodd : s.length % 2 = 1
  · rw [if_pos hodd]
    exact hget _ (Nat.div_lt_self hlpos one_lt_two)
  · rw [if_neg hodd]
    have h1 : 0 < s.getD (s.length / 2 - 1) 0 := by
      refine hget _ ?_
      have := Nat.div_le_self s.length 2
      omega
    have h2 : 0 < s.getD (s.length / 2) 0 :=
      hget _ (Nat.div_lt_self hlpos one_lt_two)
    linarith

/-- The `except` fallback of `_estimate_spacing`: a bounding-box based
estimate.  `bb = np.ptp(points, axis=0)` (per-axis max minus min);
if all extents are positive, `cbrt(prod(bb) / max(len(points), 1))`,
otherwise `max(bb.max() / 100, 1e-2)`; the result is clamped from below by
`1e-3`.  `np.ptp` on an empty array raises, which the inner `except`
catches, returning `1e-2`. -/
noncomputable def spacingFallback (pts : List Pt) : ℝ :=
  match pts with
  | [] => 1e-2
  | p :: rest =>
    let bbx := (rest.map (fun q => q.1)).foldl max p.1 -
      (rest.map (fun q => q.1)).foldl min p.1
    let bby := (rest.map (fun q => q.2.1)).foldl max p.2.1 -
      (rest.map (fun q => q.2.1)).foldl min p.2.1
    let bbz := (rest.map (fun q => q.2.2)).foldl max p.2.2 -
      (rest.map (fun q => q.2.2)).foldl min p.2.2
    let approx :=
      if 0 < bbx ∧ 0 < bby ∧ 0 < bbz then
        (bbx * bby * bbz / ((max (p :: rest).length 1 : ℕ) : ℝ)) ^ ((1 : ℝ) / 3)
      else max (max bbx (max bby bbz) / 100) 1e-2
    max approx 1e-3

theorem spacingFallback_pos (pts : List Pt) : 0 < spacingFallback pts := by
  unfold spacingFallback
  match pts with
  | [] => norm_num
  | p :: rest =>
    exact lt_of_lt_of_le (by norm_num) (le_max_right _ _)

/-- `_estimate_spacing(points, sample_size=5000)`, embedded over `ℝ`.
The non-finite-value mask is the identity on real inputs, so the
`len < 2` guards collapse to one check.  `sampleIdx` is the random-oracle
output of `np.random.choice`; `treeOk = false` models an exception raised
inside the `try` block (after the length guard, i.e. in the
cKDTree/query path), diverting to the bounding-box fallback. -/
noncomputable def estimateSpacing (pts : List Pt) (sampleIdx : List ℕ)
    (treeOk : Bool) : ℝ :=
  if pts.length < 2 then 1e-2
  else if treeOk then
    let nn := sampleIdx.map (fun i => nnDist pts i)
    let nnPos := nn.filter (fun x => decide (0 < x))
    if nnPos.isEmpty then 1e-2 else median nnPos
  else spacingFallback pts

/-- C3: for every point set with at least 2 (finite) points, and on every
path — the nearest-neighbour path (any sample drawn by the random oracle,
empty or not) and both bounding-box fallbacks (`treeOk = false`, with
positive or degenerate extents) — `_estimate_spacing` returns a strictly
positive scalar.  Over the real-valued embedding the returned value is a
real number, hence finite. -/
theorem estimate_spacing_pos (pts : List Pt) (sampleIdx : List ℕ)
    (treeOk : Bool) (h2 : 2 ≤ pts.length) :
    0 < estimateSpacing pts sampleIdx treeOk := by
  unfold estimateSpacing
  rw [if_neg (by omega)]
  cases treeOk
  · simpa using spacingFallback_pos pts
  · simp only [if_pos rfl, Bool.true_eq]
    set nnPos := (sampleIdx.map (fun i => nnDist pts i)).filter
      (fun x => decide (0 < x)) with hnn
    by_cases hemp : nnPos.isEmpty
    · rw [if_pos hemp]
      norm_num
    · rw [if_neg hemp]
      refine median_pos nnPos (by simpa [List.isEmpty_iff] using hemp) ?_
      intro x hx
      have := List.of_mem_filter hx
      simpa using this

/-- Two concrete points used as witness data for `estimate_spacing_pos`. -/
def wPts2 : List Pt := [(0, 0, 0), (1, 0, 0)]

/-- Witness for C3: the ≥2-points hypothesis holds on a concrete 2-point
set and the estimator is positive there. -/
theorem estimate_spacing_pos_witness :
    2 ≤ wPts2.length ∧ 0 < estimateSpacing wPts2 [0, 1] true :=
  ⟨by decide, estimate_spacing_pos wPts2 [0, 1] true (by decide)⟩

/-! ## `detect_planes` (§4.2 PlanarSegmenter)

Configuration from `plane_config`: `min_plane_points = 500`,
`max_planes = 10` (the RANSAC parameters `distance_threshold = 0.1`,
`ransac_n = 3`, `num_iterations = 5000` are passed through to the external
`segment_plane` primitive, here absorbed into the oracle). -/

/-- `plane_config['min_plane_points']`. -/
def minPlanePoints : ℕ := 500

/-- `plane_config['max_planes']`. -/
def maxPlanes : ℕ := 10

/-- A detected plane: the dict `{'model': plane_model, 'pcd': plane_pcd,
'inliers_count': len(inliers)}` recorded by `detect_planes`. -/
structure PlaneRec where
  model : ℝ × ℝ × ℝ × ℝ
  pcd : List Pt
  inliersCount : ℕ

/-- The external `segment_plane` RANSAC primitive: on a residual cloud it
returns a plane equation and inlier index list, or `none` when the call
raises (caught by the `except` in `detect_planes`). -/
abbrev SegmentOracle : Type := List Pt → Option ((ℝ × ℝ × ℝ × ℝ) × List ℕ)

/-- Mask-based index selection, as in Open3D `select_by_index`: point `i`
is kept iff (`i ∈ idx`) differs from `invert`; output order follows the
point order.  `i` is the running index of the head of the list. -/
def selectByIndexAux {α : Type} (idx : List ℕ) (invert : Bool) :
    ℕ → List α → List α
  | _, [] => []
  | i, p :: ps =>
    if i ∈ idx then
      (if invert then selectByIndexAux idx invert (i + 1) ps
        else p :: selectByIndexAux idx invert (i + 1) ps)
    else
      (if invert then p :: selectByIndexAux idx invert (i + 1) ps
        else selectByIndexAux idx invert (i + 1) ps)

/-- `pcd.select_by_index(idx, invert)`. -/
def selectByIndex {α : Type} (pts : List α) (idx : List ℕ) (invert : Bool) :
    List α :=
  selectByIndexAux idx invert 0 pts

theorem selectByIndexAux_partition {α : Type} (idx : List ℕ) (pts : List α) :
    ∀ i : ℕ, (↑(selectByIndexAux idx false i pts) : Multiset α)
      + ↑(selectByIndexAux idx true i pts) = (↑pts : Multiset α) := by
  induction pts with
  | nil => intro i; simp [selectByIndexAux]
  | cons p ps ih =>
    intro i
    by_cases h : i ∈ idx
    · have e1 : selectByIndexAux idx false i (p :: ps)
          = p :: selectByIndexAux idx false (i + 1) ps := by
        simp [selectByIndexAux, h]
      have e2 : selectByIndexAux idx true i (p :: ps)
          = selectByIndexAux idx true (i + 1) ps := by
        simp [selectByIndexAux, h]
      rw [e1, e2]
      simp only [← Multiset.cons_coe]
      rw [Multiset.cons_add, ih (i + 1)]
    · have e1 : selectByIndexAux idx false i (p :: ps)
          = selectByIndexAux idx false (i + 1) ps := by
        simp [selectByIndexAux, h]
      have e2 : selectByIndexAux idx true i (p :: ps)
          = p :: selectByIndexAux idx true (i + 1) ps := by
        simp [selectByIndexAux, h]
      rw [e1, e2]
      simp only [← Multiset.cons_coe]
      rw [Multiset.add_cons, ih (i + 1)]

theorem selectByIndexAux_sublist {α : Type} (idx : List ℕ) (invert : Bool)
    (pts : List α) : ∀ i : ℕ, (selectByIndexAux idx invert i pts).Sublist pts := by
  induction pts with
  | nil => intro i; simp [selectByIndexAux]
  | cons p ps ih =>
    intro i
    simp only [selectByIndexAux]
    by_cases h : i ∈ idx
    · rw [if_pos h]
      cases invert
      · rw [if_neg Bool.false_ne_true]
        exact List.Sublist.cons₂ p (ih (i + 1))
      · rw [if_pos rfl]
        exact List.Sublist.cons p (ih (i + 1))
    · rw [if_neg h]
      cases invert
      · rw [if_neg Bool.false_ne_true]
        exact List.Sublist.cons p (ih (i + 1))
      · rw [if_pos rfl]
        exact List.Sublist.cons₂ p (ih (i + 1))

theorem selectByIndexAux_disjoint {α : Type} (idx : List ℕ) (pts : List α)
    (hnd : pts.Nodup) : ∀ (i : ℕ) (x : α),
      x ∈ selectByIndexAux idx false i pts →
      x ∉ selectByIndexAux idx true i pts := by
  induction pts with
  | nil => intro i x hx; simp [selectByIndexAux] at hx
  | cons p ps ih =>
    intro i x hx
    obtain ⟨hp, hps⟩ := List.nodup_cons.mp hnd
    by_cases h : i ∈ idx
    · have e1 : selectByIndexAux idx false i (p :: ps)
          = p :: selectByIndexAux idx false (i + 1) ps := by
        simp [selectByIndexAux, h]
      have e2 : selectByIndexAux idx true i (p :: ps)
          = selectByIndexAux idx true (i + 1) ps := by
        simp [selectByIndexAux, h]
      rw [e1] at hx
      rw [e2]
      rcases List.mem_cons.mp hx with hxe | hxm
      · subst hxe
        intro hmem
        exact hp ((selectByIndexAux_sublist idx true ps (i + 1)).subset hmem)
      · exact ih hps (i + 1) x hxm
    · have e1 : selectByIndexAux idx false i (p :: ps)
          = selectByIndexAux idx false (i + 1) ps := by
        simp [selectByIndexAux, h]
      have e2 : selectByIndexAux idx true i (p :: ps)
          = p :: selectByIndexAux idx true (i + 1) ps := by
        simp [selectByIndexAux, h]
      rw [e1] at hx
      rw [e2]
      intro hmem
      rcases List.mem_cons.mp hmem with hxe | hxm
      · subst hxe
        exact hp ((selectByIndexAux_sublist idx false ps (i + 1)).subset hx)
      · exact ih hps (i + 1) x hx hxm

/-- The plane-peeling loop of `detect_planes`, with `fuel` remaining
iterations of `for i in range(max_planes)`.  Each iteration: stop when the
residual has fewer than `min_plane_points` points; call `segment_plane`
(a `none` result models a raised exception, caught by the `except` which
breaks the loop); stop when the inlier count is below `min_plane_points`;
otherwise record the plane (`select_by_index(inliers)`) and recurse on the
complement (`select_by_index(inliers, invert=True)`). -/
def detectPlanesAux (f : SegmentOracle) : ℕ → List Pt → List PlaneRec × List Pt
  | 0, r => ([], r)
  | fuel + 1, r =>
    if r.length < minPlanePoints then ([], r)
    else
      match f r with
      | none => ([], r)
      | some (mdl, inliers) =>
        if inliers.length < minPlanePoints then ([], r)
        else
          (⟨mdl, selectByIndex r inliers false, inliers.length⟩ ::
              (detectPlanesAux f fuel (selectByIndex r inliers true)).1,
            (detectPlanesAux f fuel (selectByIndex r inliers true)).2)

/-- `detect_planes(pcd)`: run the peeling loop for `max_planes` iterations,
returning the ordered plane list and the residual point set. -/
def detectPlanes (f : SegmentOracle) (pcd : List Pt) :
    List PlaneRec × List Pt :=
  detectPlanesAux f maxPlanes pcd

theorem detectPlanesAux_spec (f : SegmentOracle) (fuel : ℕ) (r : List Pt) :
    (∀ p ∈ (detectPlanesAux f fuel r).1, minPlanePoints ≤ p.inliersCount) ∧
    ((detectPlanesAux f fuel r).1.map (fun p => (↑p.pcd : Multiset Pt))).sum
        + ↑(detectPlanesAux f fuel r).2 = (↑r : Multiset Pt) ∧
    (∀ p ∈ (detectPlanesAux f fuel r).1, ∀ x ∈ p.pcd, x ∈ r) ∧
    ((detectPlanesAux f fuel r).2.Sublist r) ∧
    (r.Nodup → (detectPlanesAux f fuel r).1.Pairwise
        (fun p q => ∀ x ∈ p.pcd, x ∉ q.pcd)) := by
  induction fuel generalizing r with
  | zero =>
    refine ⟨by simp [detectPlanesAux], by simp [detectPlanesAux],
      by simp [detectPlanesAux], by simp [detectPlanesAux], by simp [detectPlanesAux]⟩
  | succ fuel ih =>
    by_cases h1 : r.length < minPlanePoints
    · simp only [detectPlanesAux, if_pos h1]
      exact ⟨by simp, by simp, by simp, List.Sublist.refl r, by simp⟩
    · cases hf : f r with
      | none =>
        simp only [detectPlanesAux, if_neg h1, hf]
        exact ⟨by simp, by simp, by simp, List.Sublist.refl r, by simp⟩
      | some pr =>
        obtain ⟨mdl, inliers⟩ := pr
        by_cases h2 : inliers.length < minPlanePoints
        · simp only [detectPlanesAux, if_neg h1, hf, if_pos h2]
          exact ⟨by simp, by simp, by simp, List.Sublist.refl r, by simp⟩
        · have hsubF := (selectByIndexAux_sublist inliers false r 0).subset
          have hsubT := selectByIndexAux_sublist inliers true r 0
          obtain ⟨ihCnt, ihSum, ihSub, ihSl, ihPw⟩ :=
            ih (selectByIndex r inliers true)
          simp only [detectPlanesAux, if_neg h1, hf, if_neg h2]
          refine ⟨?_, ?_, ?_, ?_, ?_⟩
          · intro p hp
            rcases List.mem_cons.mp hp with hpe | hpm
            · subst hpe
              show minPlanePoints ≤ inliers.length
              omega
            · exact ihCnt p hpm
          · simp only [List.map_cons, List.sum_cons]
            rw [add_assoc, ihSum]
            exact selectByIndexAux_partition inliers r 0
          · intro p hp x hx
            rcases List.mem_cons.mp hp with hpe | hpm
            · subst hpe
              exact hsubF hx
            · exact hsubT.subset (ihSub p hpm x hx)
          · exact ihSl.trans hsubT
          · intro hnd
            rw [List.pairwise_cons]
            refine ⟨?_, ihPw (hsubT.nodup hnd)⟩
            intro q hq x hx hxq
            exact selectByIndexAux_disjoint inliers r hnd 0 x hx
              (ihSub q hq x hxq)

/-- C2: for every input point cloud and every behaviour of the external
RANSAC primitive, `detect_planes` returns planes whose recorded inlier
counts are all ≥ `min_plane_points`, and the planes' inlier point
multisets together with the residual point list partition the input
exactly — no point occurrence is lost or duplicated, so each occurrence
belongs to at most one plane.  On duplicate-free inputs (the pipeline
always segments after `remove_duplicated_points`) the inlier sets are in
addition pairwise disjoint as point sets. -/
theorem detect_planes_partition (f : SegmentOracle) (pcd : List Pt)
    (planes : List PlaneRec) (residual : List Pt)
    (h : detectPlanes f pcd = (planes, residual)) :
    (∀ p ∈ planes, minPlanePoints ≤ p.inliersCount) ∧
    (planes.map (fun p => (↑p.pcd : Multiset Pt))).sum + ↑residual
        = (↑pcd : Multiset Pt) ∧
    (pcd.Nodup → planes.Pairwise (fun p q => ∀ x ∈ p.pcd, x ∉ q.pcd)) := by
  have h1 : planes = (detectPlanesAux f maxPlanes pcd).1 := by
    rw [← detectPlanes, h]
  have h2 : residual = (detectPlanesAux f maxPlanes pcd).2 := by
    rw [← detectPlanes, h]
  subst h1; subst h2
  obtain ⟨c1, c2, _, _, c5⟩ := detectPlanesAux_spec f maxPlanes pcd
  exact ⟨c1, c2, c5⟩

/-- An always-raising `segment_plane` oracle (every call throws). -/
def wSegFail : SegmentOracle := fun _ => none

/-- Witness for C2: on a concrete 2-point cloud (below
`min_plane_points`, so the loop stops immediately) the partition
invariants hold with no planes and the input as residual. -/
theorem detect_planes_partition_witness :
    (∀ p ∈ ([] : List PlaneRec), minPlanePoints ≤ p.inliersCount) ∧
    (([] : List PlaneRec).map (fun p => (↑p.pcd : Multiset Pt))).sum
        + ↑wPts2 = (↑wPts2 : Multiset Pt) ∧
    (wPts2.Nodup → ([] : List PlaneRec).Pairwise
        (fun p q => ∀ x ∈ p.pcd, x ∉ q.pcd)) :=
  detect_planes_partition wSegFail wPts2 [] wPts2 rfl

/-- A partial run of the plane-extraction loop: `ExtractRun f pcd j planes r`
states that after `j` completed iterations on input `pcd` the loop has
recorded `planes` and holds residual `r`.  Each completed iteration
passed both `min_plane_points` guards and a successful `segment_plane`
call. -/
inductive ExtractRun (f : SegmentOracle) (pcd : List Pt) :
    ℕ → List PlaneRec → List Pt → Prop
  | nil : ExtractRun f pcd 0 [] pcd
  | step {j : ℕ} {planes : List PlaneRec} {r : List Pt}
      {mdl : ℝ × ℝ × ℝ × ℝ} {inliers : List ℕ} :
      ExtractRun f pcd j planes r →
      minPlanePoints ≤ r.length →
      f r = some (mdl, inliers) →
      minPlanePoints ≤ inliers.length →
      ExtractRun f pcd (j + 1)
        (planes ++ [⟨mdl, selectByIndex r inliers false, inliers.length⟩])
        (selectByIndex r inliers true)

theorem extractRun_aux {f : SegmentOracle} {pcd : List Pt} {j : ℕ}
    {planes : List PlaneRec} {r : List Pt}
    (h : ExtractRun f pcd j planes r) :
    ∀ fuel : ℕ, j ≤ fuel →
      detectPlanesAux f fuel pcd =
        (planes ++ (detectPlanesAux f (fuel - j) r).1,
          (detectPlanesAux f (fuel - j) r).2) := by
  induction h with
  | nil =>
    intro fuel _
    simp
  | step hrun hlen hf hcnt ih =>
    intro fuel hfuel
    rename_i j planes r mdl inliers
    rw [ih fuel (by omega)]
    have hk : fuel - j = (fuel - (j + 1)) + 1 := by omega
    rw [hk]
    simp only [detectPlanesAux, if_neg (by omega : ¬ r.length < minPlanePoints),
      hf, if_neg (by omega : ¬ inliers.length < minPlanePoints)]
    simp

/-- C8: if the external RANSAC primitive raises during some iteration of
the extraction loop (after `j` completed iterations, while at least
`min_plane_points` residual points remain so the failing call is actually
made), the loop terminates early and `detect_planes` returns the `j`
planes already extracted together with the current residual set; the
failure is caught and does not propagate (the function returns normally). -/
theorem detect_planes_failure_keeps_earlier (f : SegmentOracle) (pcd : List Pt)
    (j : ℕ) (planes : List PlaneRec) (r : List Pt)
    (hrun : ExtractRun f pcd j planes r) (hj : j < maxPlanes)
    (hlen : minPlanePoints ≤ r.length) (hfail : f r = none) :
    detectPlanes f pcd = (planes, r) := by
  unfold detectPlanes
  rw [extractRun_aux hrun maxPlanes (le_of_lt hj)]
  have hk : maxPlanes - j = (maxPlanes - j - 1) + 1 := by
    unfold maxPlanes at hj ⊢
    omega
  rw [hk]
  simp only [detectPlanesAux, if_neg (by omega : ¬ r.length < minPlanePoints),
    hfail]
  simp

/-- A concrete 500-point cloud, exactly at `min_plane_points`. -/
def wPts500 : List Pt := List.replicate 500 ptZero

/-- Witness for C8: on a 500-point cloud with an oracle that raises on the
first call, extraction returns no planes and the untouched input as
residual. -/
theorem detect_planes_failure_keeps_earlier_witness :
    detectPlanes wSegFail wPts500 = ([], wPts500) := by
  refine detect_planes_failure_keeps_earlier wSegFail wPts500 0 [] wPts500
    ExtractRun.nil (by norm_num [maxPlanes]) ?_ rfl
  rw [wPts500, List.length_replicate]
  norm_num [minPlanePoints]

/-! ## `_reconstruct_residual_points` (§4.4 ResidualReconstructor)

The three external reconstruction primitives and the bounding-box crop are
oracles; a `none` result models a raised exception at the call site
(caught by the corresponding `except`). -/

/-- `create_from_point_cloud_alpha_shape(pcd, alpha)`. -/
abbrev AlphaOracle : Type := List Pt → ℝ → Option Mesh

/-- `create_from_point_cloud_ball_pivoting(pcd, radii)`. -/
abbrev BallOracle : Type := List Pt → List ℝ → Option Mesh

/-- `create_from_point_cloud_poisson(pcd, depth, ...)` (first component of
the returned pair). -/
abbrev PoissonOracle : Type := List Pt → ℕ → Option Mesh

/-- `mesh.crop(aabb.scale(1.1, aabb.get_center()))`, where `aabb` is the
axis-aligned bounding box of the residual points. -/
abbrev CropOracle : Type := List Pt → Mesh → Option Mesh

/-- The alpha parameter: `max(spacing * 2.0, 5e-4)`. -/
noncomputable def alphaOf (pts : List Pt) (sampleIdx : List ℕ)
    (treeOk : Bool) : ℝ :=
  max (estimateSpacing pts sampleIdx treeOk * 2.0) 5e-4

/-- The ball-pivoting radius set: `[base * r for r in (0.8, 1.2, 2.0)]`
with `base = max(spacing, 1e-3)`. -/
noncomputable def radiiOf (pts : List Pt) (sampleIdx : List ℕ)
    (treeOk : Bool) : List ℝ :=
  let base := max (estimateSpacing pts sampleIdx treeOk) 1e-3
  [base * 0.8, base * 1.2, base * 2.0]

/-- `_reconstruct_residual_points(pcd)`: below 50 points return `None`;
otherwise try alpha-shape, then ball pivoting, then Poisson (depth 8,
result cropped to the scaled bounding box), accepting the first whose
output mesh has a non-zero triangle count; a method that raises
(oracle `none`) or returns an empty mesh falls through to the next;
if all fail, return `None`. -/
noncomputable def reconstructResidual (aO : AlphaOracle) (bO : BallOracle)
    (pO : PoissonOracle) (cO : CropOracle) (sampleIdx : List ℕ)
    (treeOk : Bool) (pts : List Pt) : Option Mesh :=
  if pts.length < 50 then none
  else
    let tryPoisson : Option Mesh :=
      match pO pts 8 with
      | some m => if 0 < m.triangles.length then cO pts m else none
      | none => none
    let tryBall : Option Mesh :=
      match bO pts (radiiOf pts sampleIdx treeOk) with
      | some m => if 0 < m.triangles.length then some m else tryPoisson
      | none => tryPoisson
    match aO pts (alphaOf pts sampleIdx treeOk) with
    | some m => if 0 < m.triangles.length then some m else tryBall
    | none => tryBall

/-- Alpha-shape contributed no mesh: the call raised, or its mesh had zero
triangles. -/
def alphaFailed (aO : AlphaOracle) (pts : List Pt) (alpha : ℝ) : Prop :=
  aO pts alpha = none ∨ ∃ m, aO pts alpha = some m ∧ m.triangles.length = 0

/-- Ball pivoting contributed no mesh: the call raised, or its mesh had
zero triangles. -/
def ballFailed (bO : BallOracle) (pts : List Pt) (radii : List ℝ) : Prop :=
  bO pts radii = none ∨ ∃ m, bO pts radii = some m ∧ m.triangles.length = 0

/-- C7: for every residual point cloud with fewer than the 50-point minimum,
`_reconstruct_residual_points` returns `None` ("no mesh") — it takes the
early-return branch before invoking any reconstruction primitive, so no
error is raised regardless of the oracles' behaviour. -/
theorem reconstruct_residual_below_min (aO : AlphaOracle) (bO : BallOracle)
    (pO : PoissonOracle) (cO : CropOracle) (sampleIdx : List ℕ)
    (treeOk : Bool) (pts : List Pt) (h : pts.length < 50) :
    reconstructResidual aO bO pO cO sampleIdx treeOk pts = none := by
  unfold reconstructResidual
  rw [if_pos h]

/-- Witness for C7: the empty residual cloud is below the minimum and
yields no mesh. -/
theorem reconstruct_residual_below_min_witness :
    reconstructResidual (fun _ _ => none) (fun _ _ => none) (fun _ _ => none)
      (fun _ _ => none) [] true [] = none :=
  reconstruct_residual_below_min (fun _ _ => none) (fun _ _ => none)
    (fun _ _ => none) (fun _ _ => none) [] true [] (by decide)

/-- C6: on a residual cloud that reaches reconstruction (≥ 50 points), the
methods are tried in strict priority order — alpha-shape, ball pivoting,
Poisson — and the result of the first method whose output mesh has a
non-zero triangle count is returned.  When an earlier method succeeds the
later oracles are never invoked: the result is the same for every choice
of the later oracles.  (For Poisson, "its result" is the mesh after the
bounding-box crop, as in the source.) -/
theorem reconstruct_residual_chain (pts : List Pt) (sampleIdx : List ℕ)
    (treeOk : Bool) (hlen : 50 ≤ pts.length) :
    (∀ (aO : AlphaOracle) (m : Mesh),
      aO pts (alphaOf pts sampleIdx treeOk) = some m →
      0 < m.triangles.length →
      ∀ (bO : BallOracle) (pO : PoissonOracle) (cO : CropOracle),
        reconstructResidual aO bO pO cO sampleIdx treeOk pts = some m) ∧
    (∀ (aO : AlphaOracle) (bO : BallOracle) (m : Mesh),
      alphaFailed aO pts (alphaOf pts sampleIdx treeOk) →
      bO pts (radiiOf pts sampleIdx treeOk) = some m →
      0 < m.triangles.length →
      ∀ (pO : PoissonOracle) (cO : CropOracle),
        reconstructResidual aO bO pO cO sampleIdx treeOk pts = some m) ∧
    (∀ (aO : AlphaOracle) (bO : BallOracle) (pO : PoissonOracle)
        (cO : CropOracle) (m : Mesh),
      alphaFailed aO pts (alphaOf pts sampleIdx treeOk) →
      ballFailed bO pts (radiiOf pts sampleIdx treeOk) →
      pO pts 8 = some m →
      0 < m.triangles.length →
        reconstructResidual aO bO pO cO sampleIdx treeOk pts = cO pts m) := by
  have hnot : ¬ pts.length < 50 := by omega
  refine ⟨?_, ?_, ?_⟩
  · intro aO m ha hm bO pO cO
    unfold reconstructResidual
    rw [if_neg hnot, ha]
    simp only [if_pos hm]
  · intro aO bO m ha hb hm pO cO
    unfold reconstructResidual
    rw [if_neg hnot]
    rcases ha with ha | ⟨m0, ha0, hz⟩
    · rw [ha, hb]
      simp only [if_pos hm]
    · rw [ha0, hb]
      simp only [if_neg (by omega : ¬ 0 < m0.triangles.length), if_pos hm]
  · intro aO bO pO cO m ha hb hp hm
    unfold reconstructResidual
    rw [if_neg hnot]
    have hpois :
        (match pO pts 8 with
          | some m => if 0 < m.triangles.length then cO pts m else none
          | none => none) = cO pts m := by
      rw [hp]
      simp only [if_pos hm]
    rcases ha with ha | ⟨m0, ha0, hz0⟩ <;>
      rcases hb with hb | ⟨m1, hb1, hz1⟩
    · rw [ha, hb, hpois]
    · rw [ha, hb1]
      simp only [if_neg (by omega : ¬ 0 < m1.triangles.length)]
      rw [hpois]
    · rw [ha0, hb]
      simp only [if_neg (by omega : ¬ 0 < m0.triangles.length)]
      rw [hpois]
    · rw [ha0, hb1]
      simp only [if_neg (by omega : ¬ 0 < m0.triangles.length),
        if_neg (by omega : ¬ 0 < m1.triangles.length)]
      rw [hpois]

/-- A one-triangle mesh used as a concrete oracle output in witnesses. -/
def wMesh1 : Mesh := { vertices := [ptZero], triangles := [(0, 0, 0)] }

/-- A concrete 50-point residual cloud, exactly at the reconstructor's
minimum. -/
def wPts50 : List Pt := List.replicate 50 ptZero

/-- Witness for C6: with an alpha-shape oracle that returns a non-empty
mesh on a 50-point cloud, the chain returns exactly that mesh (the later
oracles here always raise, and are never consulted). -/
theorem reconstruct_residual_chain_witness :
    reconstructResidual (fun _ _ => some wMesh1) (fun _ _ => none)
      (fun _ _ => none) (fun _ _ => none) [] true wPts50 = some wMesh1 :=
  (reconstruct_residual_chain wPts50 [] true
      (by rw [wPts50, List.length_replicate])).1
    (fun _ _ => some wMesh1) wMesh1 rfl (by decide)
    (fun _ _ => none) (fun _ _ => none) (fun _ _ => none)

/-! ## `_merge_meshes` (§4.5 MeshMerger) -/

/-- `recon_config['merge_epsilon']`. -/
noncomputable def mergeEpsilon : ℝ := 1e-3

/-- All triangle indices of a mesh are strictly below its vertex count
(the data-model invariant every Open3D mesh satisfies). -/
def Mesh.trianglesValid (m : Mesh) : Prop :=
  ∀ t ∈ m.triangles, t.1 < m.vertices.length ∧
    t.2.1 < m.vertices.length ∧ t.2.2 < m.vertices.length

/-- One iteration of the `for mesh in meshes` loop of `_merge_meshes`:
append the vertices, append the triangles with the running vertex offset
added to every index, and advance the offset by the mesh's vertex count. -/
def mergeStep (acc : Mesh × ℕ) (m : Mesh) : Mesh × ℕ :=
  ({ vertices := acc.1.vertices ++ m.vertices
     triangles := acc.1.triangles ++
       m.triangles.map (fun t => (t.1 + acc.2, t.2.1 + acc.2, t.2.2 + acc.2)) },
   acc.2 + m.vertices.length)

/-- The concatenation phase of `_merge_meshes` (everything before
`merge_close_vertices`): `np.vstack` of all vertex arrays and of all
offset-adjusted triangle arrays, starting from `vertex_offset = 0`. -/
def mergeConcat (meshes : List Mesh) : Mesh :=
  (meshes.foldl mergeStep ({ vertices := [], triangles := [] }, 0)).1

/-- `_merge_meshes(meshes)`: a single mesh is returned unchanged; otherwise
the meshes are concatenated with running vertex offsets and near-duplicate
vertices are merged by the external `merge_close_vertices(merge_epsilon)`
primitive (the `mergeClose` oracle). -/
noncomputable def mergeMeshes (mergeClose : Mesh → ℝ → Mesh)
    (meshes : List Mesh) : Mesh :=
  if meshes.length = 1 then meshes.headD { vertices := [], triangles := [] }
  else mergeClose (mergeConcat meshes) mergeEpsilon

theorem mergeStep_foldl_vertices (meshes : List Mesh) :
    ∀ acc : Mesh × ℕ,
      (meshes.foldl mergeStep acc).1.vertices.length =
        acc.1.vertices.length + (meshes.map (fun m => m.vertices.length)).sum := by
  induction meshes with
  | nil => intro acc; simp
  | cons m ms ih =>
    intro acc
    rw [List.foldl_cons, ih (mergeStep acc m)]
    simp [mergeStep]
    omega

theorem mergeStep_foldl_triangles (meshes : List Mesh) :
    ∀ acc : Mesh × ℕ,
      (meshes.foldl mergeStep acc).1.triangles.length =
        acc.1.triangles.length + (meshes.map (fun m => m.triangles.length)).sum := by
  induction meshes with
  | nil => intro acc; simp
  | cons m ms ih =>
    intro acc
    rw [List.foldl_cons, ih (mergeStep acc m)]
    simp [mergeStep]
    omega

theorem mergeStep_foldl_valid (meshes : List Mesh)
    (hv : ∀ m ∈ meshes, m.trianglesValid) :
    ∀ acc : Mesh × ℕ, acc.2 = acc.1.vertices.length → acc.1.trianglesValid →
      (meshes.foldl mergeStep acc).2 =
          (meshes.foldl mergeStep acc).1.vertices.length ∧
        (meshes.foldl mergeStep acc).1.trianglesValid := by
  induction meshes with
  | nil => intro acc hoff hval; exact ⟨hoff, hval⟩
  | cons m ms ih =>
    intro acc hoff hval
    rw [List.foldl_cons]
    refine ih (fun q hq => hv q (List.mem_cons_of_mem m hq)) (mergeStep acc m)
      ?_ ?_
    · simp [mergeStep, hoff]
    · intro t ht
      simp only [mergeStep, List.mem_append] at ht
      rcases ht with ht | ht
      · obtain ⟨h1, h2, h3⟩ := hval t ht
        simp only [mergeStep, List.length_append]
        omega
      · obtain ⟨t0, ht0, rfl⟩ := List.mem_map.mp ht
        obtain ⟨h1, h2, h3⟩ := hv m (List.mem_cons_self m ms) t0 ht0
        simp only [mergeStep, List.length_append]
        omega

/-- C4: for every list of two or more input meshes (each satisfying the
mesh index invariant), `_merge_meshes` applies `merge_close_vertices` to
the concatenated mesh, and that concatenated mesh — the state before
vertex deduplication — has exactly the sum of the input vertex counts as
vertices and the sum of the input triangle counts as triangles; after the
running vertex offset is added, every triangle index is strictly below
the merged vertex count. -/
theorem merge_meshes_counts (mergeClose : Mesh → ℝ → Mesh)
    (meshes : List Mesh) (h2 : 2 ≤ meshes.length)
    (hv : ∀ m ∈ meshes, m.trianglesValid) :
    mergeMeshes mergeClose meshes = mergeClose (mergeConcat meshes) mergeEpsilon ∧
    (mergeConcat meshes).vertices.length =
      (meshes.map (fun m => m.vertices.length)).sum ∧
    (mergeConcat meshes).triangles.length =
      (meshes.map (fun m => m.triangles.length)).sum ∧
    (mergeConcat meshes).trianglesValid := by
  refine ⟨?_, ?_, ?_, ?_⟩
  · unfold mergeMeshes
    rw [if_neg (by omega)]
  · rw [mergeConcat, mergeStep_foldl_vertices]
    simp
  · rw [mergeConcat, mergeStep_foldl_triangles]
    simp
  · exact (mergeStep_foldl_valid meshes hv _ rfl (fun t ht => by simp at ht)).2

theorem wMesh1_valid : wMesh1.trianglesValid := by
  intro t ht
  simp only [wMesh1, List.mem_singleton] at ht
  subst ht
  simp [wMesh1]

/-- Witness for C4: two concrete one-triangle meshes satisfy the
hypotheses, and their concatenation has summed counts and valid indices. -/
theorem merge_meshes_counts_witness :
    (mergeConcat [wMesh1, wMesh1]).vertices.length =
      ([wMesh1, wMesh1].map (fun m => m.vertices.length)).sum ∧
    (mergeConcat [wMesh1, wMesh1]).triangles.length =
      ([wMesh1, wMesh1].map (fun m => m.triangles.length)).sum ∧
    (mergeConcat [wMesh1, wMesh1]).trianglesValid := by
  have h := merge_meshes_counts (fun m _ => m) [wMesh1, wMesh1] (by decide)
    (by
      intro m hm
      have hm1 : m = wMesh1 := by
        rcases List.mem_cons.mp hm with h | h
        · exact h
        · exact List.mem_singleton.mp h
      rw [hm1]
      exact wMesh1_valid)
  exact ⟨h.2.1, h.2.2.1, h.2.2.2⟩

/-! ## `extract_plane_quad_corners` (§4.3 QuadExtractor) and `create_mesh` -/

/-- Componentwise vector subtraction (`point - center`). -/
def vsub (p q : Pt) : Pt := (p.1 - q.1, p.2.1 - q.2.1, p.2.2 - q.2.2)

/-- Componentwise vector addition. -/
def vadd (p q : Pt) : Pt := (p.1 + q.1, p.2.1 + q.2.1, p.2.2 + q.2.2)

/-- Scalar multiple of a vector. -/
def smul3 (t : ℝ) (p : Pt) : Pt := (t * p.1, t * p.2.1, t * p.2.2)

/-- `np.dot`. -/
def dot3 (p q : Pt) : ℝ := p.1 * q.1 + p.2.1 * q.2.1 + p.2.2 * q.2.2

/-- `np.cross`. -/
def cross3 (a b : Pt) : Pt :=
  (a.2.1 * b.2.2 - a.2.2 * b.2.1,
    a.2.2 * b.1 - a.1 * b.2.2,
    a.1 * b.2.1 - a.2.1 * b.1)

/-- `np.linalg.norm` of a vector. -/
noncomputable def norm3 (p : Pt) : ℝ := Real.sqrt (dot3 p p)

/-- `np.min` over a list (`0` on the empty list, on which `np.min` raises —
every actual call site passes a nonempty plane-inlier projection). -/
noncomputable def listMin : List ℝ → ℝ
  | [] => 0
  | x :: xs => xs.foldl min x

/-- `np.max` over a list (same remark as `listMin`). -/
noncomputable def listMax : List ℝ → ℝ
  | [] => 0
  | x :: xs => xs.foldl max x

/-- `np.mean(points, axis=0)`: componentwise sum divided by the count. -/
noncomputable def centroid (pts : List Pt) : Pt :=
  smul3 (1 / (pts.length : ℝ)) (pts.foldr vadd ptZero)

/-- `extract_plane_quad_corners(plane_pcd, plane_model)` (main path):
normalize the plane normal, build the in-plane basis `(u, v)` from a
helper axis (world Z unless the normal is near-Z, else world X), project
all inliers into the local 2D frame, take the axis-aligned 2D bounding
rectangle, and un-project its four corners.  The `except` fallback to the
first 4 axis-aligned-bounding-box points can only fire on an exception of
an external primitive, which the real-arithmetic embedding has no
analogue of (`ℝ` division by zero is total). -/
noncomputable def extractPlaneQuadCorners (planePts : List Pt)
    (model : ℝ × ℝ × ℝ × ℝ) : List Pt :=
  let n0 : Pt := (model.1, model.2.1, model.2.2.1)
  let normal := smul3 (1 / norm3 n0) n0
  let center := centroid planePts
  let temp : Pt := if |normal.2.2| < 0.9 then (0, 0, 1) else (1, 0, 0)
  let u0 := cross3 normal temp
  let u := smul3 (1 / norm3 u0) u0
  let v := cross3 normal u
  let proj := planePts.map
    (fun p => (dot3 (vsub p center) u, dot3 (vsub p center) v))
  let minX := listMin (proj.map (fun q => q.1))
  let maxX := listMax (proj.map (fun q => q.1))
  let minY := listMin (proj.map (fun q => q.2))
  let maxY := listMax (proj.map (fun q => q.2))
  [vadd center (vadd (smul3 minX u) (smul3 minY v)),
    vadd center (vadd (smul3 maxX u) (smul3 minY v)),
    vadd center (vadd (smul3 maxX u) (smul3 maxY v)),
    vadd center (vadd (smul3 minX u) (smul3 maxY v))]

/-- The quad mesh built for one detected plane in `create_mesh`. -/
noncomputable def quadOf (pl : PlaneRec) : Mesh :=
  createQuadMesh (extractPlaneQuadCorners pl.pcd pl.model)

/-- `create_mesh(pcd)`: detect planes, build one quad mesh per plane,
reconstruct the residual only when it holds strictly more than 100 points
(appending its mesh when one is produced), raise `ValueError` when no
mesh at all was generated, and merge otherwise.  In the embedding the
per-plane quadrangulation is total (its `try` body cannot raise), so
every plane contributes its quad mesh. -/
noncomputable def createMesh (segO : SegmentOracle) (aO : AlphaOracle)
    (bO : BallOracle) (pO : PoissonOracle) (cO : CropOracle)
    (sampleIdx : List ℕ) (treeOk : Bool) (mergeClose : Mesh → ℝ → Mesh)
    (pcd : List Pt) : Except String Mesh :=
  let planes := (detectPlanes segO pcd).1
  let residual := (detectPlanes segO pcd).2
  let planeMeshes := planes.map quadOf
  let allMeshes :=
    if 100 < residual.length then
      match reconstructResidual aO bO pO cO sampleIdx treeOk residual with
      | some rm => planeMeshes ++ [rm]
      | none => planeMeshes
    else planeMeshes
  if allMeshes.isEmpty then Except.error "无法生成任何有效网格"
  else Except.ok (mergeMeshes mergeClose allMeshes)

/-- C9: residual reconstruction is attempted only for residual sets with
strictly more than 100 points.  Whenever the residual of plane detection
has at most 100 points (including sizes 51–100, which would pass the
reconstructor's own 50-point minimum), `create_mesh` is independent of
the reconstruction oracles — they are never invoked — and its result is
built from the plane quad meshes alone. -/
theorem create_mesh_residual_threshold (segO : SegmentOracle)
    (mergeClose : Mesh → ℝ → Mesh) (pcd : List Pt)
    (aO : AlphaOracle) (bO : BallOracle) (pO : PoissonOracle) (cO : CropOracle)
    (sampleIdx : List ℕ) (treeOk : Bool)
    (aO' : AlphaOracle) (bO' : BallOracle) (pO' : PoissonOracle)
    (cO' : CropOracle) (sampleIdx' : List ℕ) (treeOk' : Bool)
    (h : (detectPlanes segO pcd).2.length ≤ 100) :
    createMesh segO aO bO pO cO sampleIdx treeOk mergeClose pcd =
      createMesh segO aO' bO' pO' cO' sampleIdx' treeOk' mergeClose pcd ∧
    createMesh segO aO bO pO cO sampleIdx treeOk mergeClose pcd =
      (if ((detectPlanes segO pcd).1.map quadOf).isEmpty then
        Except.error "无法生成任何有效网格"
      else Except.ok (mergeMeshes mergeClose
        ((detectPlanes segO pcd).1.map quadOf))) := by
  have hnot : ¬ 100 < (detectPlanes segO pcd).2.length := by omega
  constructor
  · simp only [createMesh, if_neg hnot]
  · simp only [createMesh, if_neg hnot]

/-- Witness for C9: a 2-point input cloud leaves a residual of 2 ≤ 100
points, and `create_mesh` gives the same result for two different
reconstruction-oracle bundles (here: one that would always succeed with a
mesh, one that always raises). -/
theorem create_mesh_residual_threshold_witness :
    createMesh wSegFail (fun _ _ => some wMesh1) (fun _ _ => some wMesh1)
        (fun _ _ => some wMesh1) (fun _ _ => some wMesh1) [] true
        (fun m _ => m) wPts2 =
      createMesh wSegFail (fun _ _ => none) (fun _ _ => none)
        (fun _ _ => none) (fun _ _ => none) [] false
        (fun m _ => m) wPts2 :=
  (create_mesh_residual_threshold wSegFail (fun m _ => m) wPts2
      (fun _ _ => some wMesh1) (fun _ _ => some wMesh1)
      (fun _ _ => some wMesh1) (fun _ _ => some wMesh1) [] true
      (fun _ _ => none) (fun _ _ => none) (fun _ _ => none)
      (fun _ _ => none) [] false (by decide)).1

/-! ## `convert` (the top-level pipeline, §7) -/

/-- The collaborators `convert` drives, bundled: every stage that can raise
in Python is an `Except`/`Option`-returning oracle.  `load` is
`load_txt_files` (raises `ValueError` when nothing loads), `preprocess`
is `preprocess_point_cloud` (downsampling/outlier removal/normals),
`buildPath` is the output-directory creation and name construction, and
`saveStl` is `save_stl` (raises when the writer reports failure). -/
structure ConvEnv where
  load : Except String (List Pt)
  preprocess : List Pt → Except String (List Pt)
  segment : SegmentOracle
  alphaO : AlphaOracle
  ballO : BallOracle
  poissonO : PoissonOracle
  cropO : CropOracle
  sampleIdx : List ℕ
  treeOk : Bool
  mergeClose : Mesh → ℝ → Mesh
  postprocess : Mesh → Except String Mesh
  buildPath : Except String String
  saveStl : Mesh → String → Except String String

/-- The body of `convert`'s `try` block: load, create the point cloud
(identity on the loaded rows), preprocess, create the mesh, postprocess,
build the output path, save.  An `error` at any stage models the Python
exception propagating to `convert`'s `except`. -/
noncomputable def convertPipeline (env : ConvEnv) :
    Except String (String × ℕ × ℕ × ℕ) :=
  match env.load with
  | .error e => .error e
  | .ok points =>
    match env.preprocess points with
    | .error e => .error e
    | .ok pcd =>
      match createMesh env.segment env.alphaO env.ballO env.poissonO
          env.cropO env.sampleIdx env.treeOk env.mergeClose pcd with
      | .error e => .error e
      | .ok mesh =>
        match env.postprocess mesh with
        | .error e => .error e
        | .ok mesh2 =>
          match env.buildPath with
          | .error e => .error e
          | .ok outPath =>
            match env.saveStl mesh2 outPath with
            | .error e => .error e
            | .ok resultPath =>
              .ok (resultPath, points.length, mesh2.triangles.length,
                mesh2.vertices.length)

/-- The outward-facing result record of `convert`: on success,
`{'success': True, 'output_path': ..., 'original_points': ...,
'final_triangles': ..., 'final_vertices': ...}`; on failure,
`{'success': False, 'error': str(e)}`. -/
inductive ConvertResult where
  | ok (outputPath : String)
      (originalPoints finalTriangles finalVertices : ℕ)
  | err (error : String)

/-- The `success` field of the result record. -/
def ConvertResult.success : ConvertResult → Bool
  | .ok _ _ _ _ => true
  | .err _ => false

/-- `convert(input_files, output_dir, output_name)`: run the pipeline
inside `try`, catching any raised exception into a failure record. -/
noncomputable def convert (env : ConvEnv) : ConvertResult :=
  match convertPipeline env with
  | .ok (p, a, b, c) => .ok p a b c
  | .error e => .err e

/-- C1: for every behaviour of the collaborators, `convert` returns a
structured result record and never propagates a fault (it is a total
function into `ConvertResult`): either `success = true` with the output
path, the original point count (of the loaded points), and the final
triangle and vertex counts (of the postprocessed mesh), with every stage
having succeeded; or `success = false` carrying the error string of the
stage that raised. -/
theorem convert_structured_result (env : ConvEnv) :
    ((convert env).success = true ∧
      ∃ points pcd mesh mesh2 outPath resultPath,
        env.load = Except.ok points ∧
        env.preprocess points = Except.ok pcd ∧
        createMesh env.segment env.alphaO env.ballO env.poissonO env.cropO
          env.sampleIdx env.treeOk env.mergeClose pcd = Except.ok mesh ∧
        env.postprocess mesh = Except.ok mesh2 ∧
        env.buildPath = Except.ok outPath ∧
        env.saveStl mesh2 outPath = Except.ok resultPath ∧
        convert env = ConvertResult.ok resultPath points.length
          mesh2.triangles.length mesh2.vertices.length) ∨
    ((convert env).success = false ∧
      ∃ msg, convert env = ConvertResult.err msg) := by
  cases hl : env.load with
  | error e =>
    refine Or.inr ⟨?_, e, ?_⟩ <;>
      simp [convert, convertPipeline, hl, ConvertResult.success]
  | ok points =>
    cases hp : env.preprocess points with
    | error e =>
      refine Or.inr ⟨?_, e, ?_⟩ <;>
        simp [convert, convertPipeline, hl, hp, ConvertResult.success]
    | ok pcd =>
      cases hm : createMesh env.segment env.alphaO env.ballO env.poissonO
          env.cropO env.sampleIdx env.treeOk env.mergeClose pcd with
      | error e =>
        refine Or.inr ⟨?_, e, ?_⟩ <;>
          simp [convert, convertPipeline, hl, hp, hm, ConvertResult.success]
      | ok mesh =>
        cases hpp : env.postprocess mesh with
        | error e =>
          refine Or.inr ⟨?_, e, ?_⟩ <;>
            simp [convert, convertPipeline, hl, hp, hm, hpp,
              ConvertResult.success]
        | ok mesh2 =>
          cases hb : env.buildPath with
          | error e =>
            refine Or.inr ⟨?_, e, ?_⟩ <;>
              simp [convert, convertPipeline, hl, hp, hm, hpp, hb,
                ConvertResult.success]
          | ok outPath =>
            cases hs : env.saveStl mesh2 outPath with
            | error e =>
              refine Or.inr ⟨?_, e, ?_⟩ <;>
                simp [convert, convertPipeline, hl, hp, hm, hpp, hb, hs,
                  ConvertResult.success]
            | ok resultPath =>
              refine Or.inl ⟨?_, points, pcd, mesh, mesh2, outPath,
                resultPath, rfl, hp, hm, hpp, rfl, hs, ?_⟩ <;>
                simp [convert, convertPipeline, hl, hp, hm, hpp, hb, hs,
                  ConvertResult.success]

end PCV
